import Mathlib

/-!
# Verification of `game-tests.js`

A shallow embedding of the game-logic fragments of `src/game-tests.js`
(Tic-Tac-Toe winner detection, Tetris piece rotation and scoring, the Simon
Says input check and progression, Asteroids screen wrapping and bullet
collision, the Memory card shuffle, the Breakout, Pong and Snake collision
checks, the Breakout paddle,
the event-listener list, the Flappy Bird scoring pass) together with the
properties proved about them.
-/

namespace GameTests

/-! ## Tic-Tac-Toe: `checkWinner` (src/game-tests.js, lines 531-546) -/

/-- The JavaScript values `checkWinner` reads and returns: a board cell is a
string, reading past the end of the board gives `undefined`, and the function
returns a string or `null`. -/
inductive Value where
  | undefined : Value
  | null : Value
  | str (s : String) : Value
  deriving DecidableEq

/-- JavaScript truthiness on `Value`: `undefined`, `null` and the empty string
are falsy, every other string is truthy. -/
def Value.truthy : Value → Bool
  | .undefined => false
  | .null => false
  | .str s => s != ""

/-- The expression `board[i]`: the cell at index `i`, `undefined` past the end. -/
def cell (board : List String) (i : Nat) : Value :=
  match board[i]? with
  | some s => .str s
  | none => .undefined

/-- The constant `winConditions`, in the order of the source. -/
def winConditions : List (Nat × Nat × Nat) :=
  [ (0, 1, 2), (3, 4, 5), (6, 7, 8),
    (0, 3, 6), (1, 4, 7), (2, 5, 8),
    (0, 4, 8), (2, 4, 6) ]

/-- The test of the `if` inside the loop:
`board[a] && board[a] === board[b] && board[a] === board[c]`. -/
def lineComplete (board : List String) (condition : Nat × Nat × Nat) : Bool :=
  (cell board condition.1).truthy
    && decide (cell board condition.1 = cell board condition.2.1)
    && decide (cell board condition.1 = cell board condition.2.2)

/-- The `for (let condition of winConditions)` loop followed by the final
`return board.includes('') ? null : 'tie'`, over the conditions still to scan. -/
def checkWinnerFrom (board : List String) : List (Nat × Nat × Nat) → Value
  | [] => if board.contains "" then .null else .str "tie"
  | condition :: rest =>
      if lineComplete board condition then cell board condition.1
      else checkWinnerFrom board rest

/-- The function `checkWinner(board)`. -/
def checkWinner (board : List String) : Value :=
  checkWinnerFrom board winConditions

/-- The symbol `s` occupies all three cells of `condition`. -/
def Owns (board : List String) (condition : Nat × Nat × Nat) (s : String) : Prop :=
  cell board condition.1 = .str s ∧ cell board condition.2.1 = .str s
    ∧ cell board condition.2.2 = .str s

/-- The line `condition` has three equal non-empty cells. -/
def CompleteLine (board : List String) (condition : Nat × Nat × Nat) : Prop :=
  ∃ s : String, s ≠ "" ∧ Owns board condition s

/-- At least one of the eight lines has three equal non-empty cells. -/
def HasLine (board : List String) : Prop :=
  ∃ condition ∈ winConditions, CompleteLine board condition

/-- The value `v` is a player symbol (a non-empty string) that occupies all three
cells of one of the eight lines. -/
def WinsWith (board : List String) (v : Value) : Prop :=
  ∃ s : String, v = .str s ∧ s ≠ "" ∧ ∃ condition ∈ winConditions, Owns board condition s

/-! ## Tetris: the piece-rotation loop (src/game-tests.js, lines 153-165) -/

/-- The expression `piece[j][i]`. A cell holds a JavaScript value, `none` being
`undefined`; reading outside a row gives `undefined` as well. -/
def entry {α : Type} (piece : List (List (Option α))) (j i : Nat) : Option α :=
  match piece[j]? with
  | some row =>
      match row[i]? with
      | some v => v
      | none => none
  | none => none

/-- The inner loop `for (let j = piece.length - 1; j >= 0; j--)
rotated[i].push(piece[j][i])`; the last argument is `j + 1`, the number of rows
still to visit, and the result is the finished row `rotated[i]`. -/
def rotatedRow {α : Type} (piece : List (List (Option α))) (i : Nat) :
    Nat → List (Option α)
  | 0 => []
  | j + 1 => entry piece j i :: rotatedRow piece i j

/-- The rotation loop of the test, as a function of `piece`: one output row for
each `i < piece[0].length`. On the empty array `piece[0].length` throws a
TypeError, rendered as `none`. -/
def rotateMatrix {α : Type} (piece : List (List (Option α))) :
    Option (List (List (Option α))) :=
  match piece with
  | [] => none
  | row0 :: _ =>
      some ((List.range row0.length).map fun i => rotatedRow piece i piece.length)

/-- The rotation applied four times in succession. -/
def rotateFourTimes {α : Type} (piece : List (List (Option α))) :
    Option (List (List (Option α))) :=
  ((rotateMatrix piece).bind rotateMatrix).bind rotateMatrix |>.bind rotateMatrix

/-- A matrix with `R` rows, each of `C` columns. -/
def Rectangular {α : Type} (m : List (List (Option α))) (R C : Nat) : Prop :=
  m.length = R ∧ ∀ row ∈ m, row.length = C

/-- Column `i` of a matrix, read from the top row to the bottom row. -/
def column {α : Type} (m : List (List (Option α))) (i : Nat) : List (Option α) :=
  (List.range m.length).map fun j => entry m j i

/-- Row `j` of a matrix (the empty row past the end). -/
def row {α : Type} (m : List (List (Option α))) (j : Nat) : List (Option α) :=
  m.getD j []

/-! ## Simon Says: the input check (src/game-tests.js, lines 671-681) -/

/-- The array method `every((val, index) => ...)`, scanning from position
`index`. -/
def everyFrom {α : Type} (callback : α → Nat → Bool) : List α → Nat → Bool
  | [], _ => true
  | val :: rest, index => callback val index && everyFrom callback rest (index + 1)

/-- The check `playerInput.every((val, index) => val === sequence[index])` over
the number alphabet; `sequence[index]` past the end is `undefined`, which is
not strictly equal to any number. -/
def isCorrect (sequence playerInput : List Nat) : Bool :=
  everyFrom (fun val index => decide (sequence[index]? = some val)) playerInput 0

/-! ## Asteroids: `wrap` (src/game-tests.js, lines 618-622) -/

/-- The function `wrap(value, max)`. It only compares its arguments, so the
numbers are taken as rationals. -/
def wrap (value max : ℚ) : ℚ :=
  if value < 0 then max
  else if value > max then 0
  else value

/-! ## Memory: `shuffle` (src/game-tests.js, lines 348-355) -/

/-- The index `j = Math.floor(Math.random() * (i + 1))` for the draw `random`. -/
def swapIndex (random : ℚ) (i : Nat) : Int :=
  Int.floor (random * ((i : ℚ) + 1))

/-- The assignment `[arr[i], arr[j]] = [arr[j], arr[i]]`: `arr[i]` receives the old
`arr[j]`, then `arr[j]` receives the old `arr[i]`. Since `Math.random()` is in
`[0, 1)`, both indices are inside the array when the loop runs; the array is
left as it is otherwise. -/
def swapCells {α : Type} (arr : List α) (i j : Nat) : List α :=
  match arr[i]?, arr[j]? with
  | some x, some y => (arr.set i y).set j x
  | _, _ => arr

/-- The loop `for (let i = arr.length - 1; i > 0; i--)` from the value `i` of its
counter on; `calls` is the number of calls to `Math.random()` made so far and
`random n` is the result of call number `n`. -/
def shuffleLoop {α : Type} (random : Nat → ℚ) : Nat → Nat → List α → List α
  | 0, _, arr => arr
  | i + 1, calls, arr =>
      shuffleLoop random i (calls + 1)
        (swapCells arr (i + 1) (swapIndex (random calls) (i + 1)).toNat)

/-- The function `shuffle(array)` run against the stream `random` of draws. -/
def shuffle {α : Type} (random : Nat → ℚ) (array : List α) : List α :=
  shuffleLoop random (array.length - 1) 0 array

/-! ## Breakout: brick collision (src/game-tests.js, lines 410-421)

Coordinates are taken as rationals, with exact arithmetic. -/

/-- The ball position `{x, y}` read by the collision checks. -/
structure Ball where
  x : ℚ
  y : ℚ

/-- A Breakout brick `{x, y, width, height, visible}`. -/
structure Brick where
  x : ℚ
  y : ℚ
  width : ℚ
  height : ℚ
  visible : Bool

/-- The constant `collision` of the Breakout test:
`brick.visible && ball.x > brick.x && ball.x < brick.x + brick.width &&
ball.y > brick.y && ball.y < brick.y + brick.height`. -/
def brickCollision (ball : Ball) (brick : Brick) : Bool :=
  brick.visible
    && decide (ball.x > brick.x)
    && decide (ball.x < brick.x + brick.width)
    && decide (ball.y > brick.y)
    && decide (ball.y < brick.y + brick.height)

/-! ## Pong: paddle collision (src/game-tests.js, lines 294-303) -/

/-- A Pong paddle `{x, y, width, height}`. -/
structure Paddle where
  x : ℚ
  y : ℚ
  width : ℚ
  height : ℚ

/-- The constant `collision` of the Pong test:
`ball.x < paddle.x + paddle.width && ball.y > paddle.y &&
ball.y < paddle.y + paddle.height`. -/
def paddleCollision (ball : Ball) (paddle : Paddle) : Bool :=
  decide (ball.x < paddle.x + paddle.width)
    && decide (ball.y > paddle.y)
    && decide (ball.y < paddle.y + paddle.height)

/-! ## Snake: wall collision (src/game-tests.js, lines 226-236) -/

/-- The function `checkCollision(x, y)`:
`x < 0 || x >= 400 || y < 0 || y >= 400`. -/
def checkCollision (x y : ℚ) : Bool :=
  decide (x < 0) || decide (x ≥ 400) || decide (y < 0) || decide (y ≥ 400)

/-! ## Simon Says: progression (src/game-tests.js, lines 694-707) -/

/-- The variables `level` and `sequence` of the progression test. -/
structure SimonState where
  level : Nat
  sequence : List Nat

/-- The colour `Math.floor(Math.random() * 4)` for the draw `random`. -/
def nextColor (random : ℚ) : Nat :=
  (Int.floor (random * 4)).toNat

/-- The progression step: `if (playerSequence.length === sequence.length)
{ level++; sequence.push(Math.floor(Math.random() * 4)); }`. -/
def progress (random : ℚ) (playerSequence : List Nat) (s : SimonState) : SimonState :=
  if playerSequence.length = s.sequence.length then
    ⟨s.level + 1, s.sequence ++ [nextColor random]⟩
  else s

/-! ## Tetris: score updates (src/game-tests.js, lines 134-151) -/

/-- The four increments of the test, in order: `score += 100`,
`score += 100 * 4 + 400`, `score += 1`, `score += 2 * 10`. -/
def scoreIncrements : List Nat :=
  [100, 100 * 4 + 400, 1, 2 * 10]

/-- The successive values of `score` when the increments are applied in order
starting from `score`. -/
def scoreTrace (score : Nat) : List Nat → List Nat
  | [] => []
  | increment :: rest => (score + increment) :: scoreTrace (score + increment) rest

/-! ## Breakout: paddle movement (src/game-tests.js, lines 432-444) -/

/-- Move right: `paddleX = Math.min(paddleX + 5, canvasWidth - paddleWidth)`. -/
def moveRight (paddleWidth canvasWidth paddleX : ℚ) : ℚ :=
  min (paddleX + 5) (canvasWidth - paddleWidth)

/-- Move left: `paddleX = Math.max(paddleX - 5, 0)`. -/
def moveLeft (paddleX : ℚ) : ℚ :=
  max (paddleX - 5) 0

/-- The two paddle moves. -/
inductive PaddleMove where
  | right : PaddleMove
  | left : PaddleMove

/-- The value of `paddleX` after a sequence of moves. -/
def movePaddle (paddleWidth canvasWidth : ℚ) : ℚ → List PaddleMove → ℚ
  | paddleX, [] => paddleX
  | paddleX, .right :: rest =>
      movePaddle paddleWidth canvasWidth (moveRight paddleWidth canvasWidth paddleX) rest
  | paddleX, .left :: rest =>
      movePaddle paddleWidth canvasWidth (moveLeft paddleX) rest

/-! ## Event listeners: `addEvent` (src/game-tests.js, lines 751-767) -/

/-- The function `addEvent(type)` as a function of the array `events`:
`if (!events.includes(type)) { events.push(type); }`. -/
def addEvent (events : List String) (type : String) : List String :=
  if events.contains type then events else events ++ [type]

/-- A sequence of `addEvent` calls on the array `events`. -/
def addEvents (events : List String) (calls : List String) : List String :=
  calls.foldl addEvent events

/-- The distinct elements of a list in order of first occurrence. -/
def firstOccurrences : List String → List String
  | [] => []
  | t :: rest => t :: (firstOccurrences rest).filter fun u => u != t

/-! ## Flappy Bird: scoring pass (src/game-tests.js, lines 502-518) -/

/-- A pipe `{x, width, passed}`. -/
structure Pipe where
  x : ℚ
  width : ℚ
  passed : Bool
  deriving DecidableEq

/-- The test of the `if`: `!pipe.passed && bird.x > pipe.x + pipe.width`. -/
def justPassed (birdX : ℚ) (pipe : Pipe) : Bool :=
  !pipe.passed && decide (birdX > pipe.x + pipe.width)

/-- The loop `pipes.forEach(pipe => { if (...) { pipe.passed = true; score++; } })`
from the value `score`, returning the final score and the pipes after the pass. -/
def scoringPass (birdX : ℚ) : Nat → List Pipe → Nat × List Pipe
  | score, [] => (score, [])
  | score, pipe :: rest =>
      if justPassed birdX pipe then
        ((scoringPass birdX (score + 1) rest).1,
          Pipe.mk pipe.x pipe.width true :: (scoringPass birdX (score + 1) rest).2)
      else
        ((scoringPass birdX score rest).1, pipe :: (scoringPass birdX score rest).2)

/-! ## Asteroids: bullet collision (src/game-tests.js, lines 629-639)

Coordinates are taken as real numbers, with exact arithmetic and the exact
square root. -/

/-- The constant `collision` of the Asteroids test, for a bullet at
`(bulletX, bulletY)` and an asteroid at `(asteroidX, asteroidY)` of size `size`:
with `dx = bullet.x - asteroid.x` and `dy = bullet.y - asteroid.y`,
`distance = Math.sqrt(dx * dx + dy * dy)` and `collision = distance < asteroid.size`. -/
def asteroidCollision (bulletX bulletY asteroidX asteroidY size : ℝ) : Prop :=
  Real.sqrt ((bulletX - asteroidX) * (bulletX - asteroidX)
      + (bulletY - asteroidY) * (bulletY - asteroidY)) < size

/-! # Properties -/

/-! ### Lemmas on `checkWinner` -/

theorem lineComplete_iff (board : List String) (condition : Nat × Nat × Nat) :
    lineComplete board condition = true ↔ CompleteLine board condition := by
  unfold lineComplete CompleteLine Owns
  constructor
  · intro h
    simp only [Bool.and_eq_true, decide_eq_true_eq] at h
    obtain ⟨⟨ht, hb⟩, hc⟩ := h
    cases ha : cell board condition.1 with
    | undefined => simp [ha, Value.truthy] at ht
    | null => simp [ha, Value.truthy] at ht
    | str s =>
      refine ⟨s, ?_, rfl, ?_, ?_⟩
      · simpa [ha, Value.truthy] using ht
      · rw [← hb, ha]
      · rw [← hc, ha]
  · rintro ⟨s, hs, ha, hb, hc⟩
    simp [ha, hb, hc, Value.truthy, hs]

/-- When no remaining condition is complete the loop falls through to the
final `return`. -/
theorem checkWinnerFrom_none (board : List String) (conds : List (Nat × Nat × Nat))
    (h : ∀ c ∈ conds, ¬ CompleteLine board c) :
    checkWinnerFrom board conds = if board.contains "" then .null else .str "tie" := by
  induction conds with
  | nil => rfl
  | cons c rest ih =>
    have hc : lineComplete board c = false := by
      rw [Bool.eq_false_iff, Ne, lineComplete_iff]
      exact h c (List.mem_cons_self _ _)
    simp only [checkWinnerFrom, hc, Bool.false_eq_true, if_false]
    exact ih fun d hd => h d (List.mem_cons_of_mem _ hd)

/-- The loop returns the first cell of the first complete condition. -/
theorem checkWinnerFrom_first (board : List String)
    (pre post : List (Nat × Nat × Nat)) (c : Nat × Nat × Nat)
    (hpre : ∀ d ∈ pre, ¬ CompleteLine board d) (hc : CompleteLine board c) :
    checkWinnerFrom board (pre ++ c :: post) = cell board c.1 := by
  induction pre with
  | nil =>
    have : lineComplete board c = true := (lineComplete_iff board c).2 hc
    simp [checkWinnerFrom, this]
  | cons d rest ih =>
    have hd : lineComplete board d = false := by
      rw [Bool.eq_false_iff, Ne, lineComplete_iff]
      exact hpre d (List.mem_cons_self _ _)
    simp only [List.cons_append, checkWinnerFrom, hd, Bool.false_eq_true, if_false]
    exact ih fun e he => hpre e (List.mem_cons_of_mem _ he)

/-- Every list of conditions with a complete one splits at its first complete
condition. -/
theorem exists_first_complete (board : List String) (conds : List (Nat × Nat × Nat))
    (h : ∃ c ∈ conds, CompleteLine board c) :
    ∃ pre c post, conds = pre ++ c :: post ∧ (∀ d ∈ pre, ¬ CompleteLine board d)
      ∧ CompleteLine board c := by
  induction conds with
  | nil => obtain ⟨c, hc, _⟩ := h; cases hc
  | cons d rest ih =>
    by_cases hd : CompleteLine board d
    · exact ⟨[], d, rest, rfl, by simp, hd⟩
    · have : ∃ c ∈ rest, CompleteLine board c := by
        obtain ⟨c, hc, hcl⟩ := h
        rcases List.mem_cons.1 hc with rfl | hc
        · exact absurd hcl hd
        · exact ⟨c, hc, hcl⟩
      obtain ⟨pre, c, post, rfl, hpre, hc⟩ := ih this
      refine ⟨d :: pre, c, post, rfl, ?_, hc⟩
      intro e he
      rcases List.mem_cons.1 he with rfl | he
      · exact hd
      · exact hpre e he

theorem hasLine_iff_any (board : List String) :
    HasLine board ↔ winConditions.any (lineComplete board) = true := by
  simp only [HasLine, List.any_eq_true, lineComplete_iff]

theorem contains_empty_iff (board : List String) :
    board.contains "" = true ↔ "" ∈ board := by
  simp

/-- With a complete line the result is the occupant of the first complete line. -/
theorem checkWinner_of_hasLine (board : List String) (h : HasLine board) :
    ∃ pre c post s, winConditions = pre ++ c :: post
      ∧ (∀ d ∈ pre, ¬ CompleteLine board d) ∧ s ≠ "" ∧ Owns board c s
      ∧ checkWinner board = .str s := by
  obtain ⟨pre, c, post, hsplit, hpre, hc⟩ := exists_first_complete board winConditions h
  have hres := checkWinnerFrom_first board pre post c hpre hc
  obtain ⟨s, hs, hown⟩ := hc
  refine ⟨pre, c, post, s, hsplit, hpre, hs, hown, ?_⟩
  rw [checkWinner, hsplit, hres, hown.1]

/-- Without a complete line the result is decided by `board.includes('')`. -/
theorem checkWinner_of_not_hasLine (board : List String) (h : ¬ HasLine board) :
    checkWinner board = if board.contains "" then .null else .str "tie" :=
  checkWinnerFrom_none board winConditions fun c hc hcl => h ⟨c, hc, hcl⟩

/-! ### The claims on `checkWinner` -/

/-- C1: on a 9-cell board `checkWinner` returns a player symbol that occupies all
three cells of one of the eight lines if and only if some line has three equal
non-empty cells; with no such line it returns `null` or `'tie'`; and a full
board with a complete line still reports the symbol, not `'tie'`. -/
theorem checkWinner_symbol_iff_line (board : List String) (_h9 : board.length = 9) :
    (WinsWith board (checkWinner board) ↔ HasLine board)
      ∧ (¬ HasLine board → checkWinner board = .null ∨ checkWinner board = .str "tie")
      ∧ (HasLine board → "" ∉ board → WinsWith board (checkWinner board)) := by
  have hwin : HasLine board → WinsWith board (checkWinner board) := by
    intro h
    obtain ⟨pre, c, post, s, hsplit, _, hs, hown, hres⟩ := checkWinner_of_hasLine board h
    exact ⟨s, hres, hs, c, by rw [hsplit]; simp, hown⟩
  refine ⟨⟨?_, hwin⟩, ?_, fun h _ => hwin h⟩
  · rintro ⟨s, _, hs, c, hc, hown⟩
    exact ⟨c, hc, s, hs, hown⟩
  · intro h
    rw [checkWinner_of_not_hasLine board h]
    by_cases he : board.contains "" = true
    · left; rw [if_pos he]
    · right; rw [if_neg he]

/-- Witness of C1 on the board `['X','X','X','','','','','','']`, which returns
`'X'`. -/
theorem checkWinner_symbol_iff_line_witness :
    checkWinner ["X", "X", "X", "", "", "", "", "", ""] = .str "X"
      ∧ (WinsWith ["X", "X", "X", "", "", "", "", "", ""]
            (checkWinner ["X", "X", "X", "", "", "", "", "", ""])
          ↔ HasLine ["X", "X", "X", "", "", "", "", "", ""]) :=
  ⟨by decide, (checkWinner_symbol_iff_line ["X", "X", "X", "", "", "", "", "", ""] rfl).1⟩

/-- C2: on a 9-cell board `checkWinner` returns the symbol of the first complete
line in the scan order of `winConditions`, whatever later lines are complete. -/
theorem checkWinner_first_complete_line (board : List String) (_h9 : board.length = 9)
    (pre post : List (Nat × Nat × Nat)) (c : Nat × Nat × Nat)
    (hsplit : winConditions = pre ++ c :: post)
    (hpre : ∀ d ∈ pre, ¬ CompleteLine board d) (hc : CompleteLine board c) :
    ∃ s, s ≠ "" ∧ Owns board c s ∧ checkWinner board = .str s := by
  have hres := checkWinnerFrom_first board pre post c hpre hc
  obtain ⟨s, hs, hown⟩ := hc
  exact ⟨s, hs, hown, by rw [checkWinner, hsplit, hres, hown.1]⟩

/-- Witness of C2: row 0 all `'X'` and row 1 all `'O'` are both complete, and the
result is `'X'`, the symbol of the first listed line. -/
theorem checkWinner_first_complete_line_witness :
    CompleteLine ["X", "X", "X", "O", "O", "O", "", "", ""] (0, 1, 2)
      ∧ CompleteLine ["X", "X", "X", "O", "O", "O", "", "", ""] (3, 4, 5)
      ∧ checkWinner ["X", "X", "X", "O", "O", "O", "", "", ""] = .str "X"
      ∧ ∃ s, s ≠ "" ∧ Owns ["X", "X", "X", "O", "O", "O", "", "", ""] (0, 1, 2) s
          ∧ checkWinner ["X", "X", "X", "O", "O", "O", "", "", ""] = .str s :=
  ⟨(lineComplete_iff _ _).1 (by decide), (lineComplete_iff _ _).1 (by decide), by decide,
    checkWinner_first_complete_line ["X", "X", "X", "O", "O", "O", "", "", ""] rfl []
      [(3, 4, 5), (6, 7, 8), (0, 3, 6), (1, 4, 7), (2, 5, 8), (0, 4, 8), (2, 4, 6)] (0, 1, 2)
      rfl (by simp) ((lineComplete_iff _ _).1 (by decide))⟩

/-- C3 as stated fails: the board `['tie','tie','tie','','','','','','']` has empty
cells and a complete line, yet `checkWinner` returns the string `'tie'`. -/
theorem checkWinner_tie_only_counterexample :
    ¬ ∀ board : List String, board.length = 9 →
        (checkWinner board = .str "tie" ↔ ("" ∉ board ∧ ¬ HasLine board)) := by
  intro h
  have h1 := (h ["tie", "tie", "tie", "", "", "", "", "", ""] rfl).1 (by decide)
  exact h1.1 (by decide)

/-- C3 (amended): a 9-cell board with no empty cell and no complete line gives
`'tie'`; `checkWinner` returns `'tie'` only for such boards or for boards on
which a line is held by three cells equal to the string `'tie'`; so on boards
with no cell `'tie'` it returns `'tie'` exactly for the full boards without a
complete line. -/
theorem checkWinner_tie_iff (board : List String) (_h9 : board.length = 9) :
    (("" ∉ board ∧ ¬ HasLine board) → checkWinner board = .str "tie")
      ∧ (checkWinner board = .str "tie" →
          ("" ∉ board ∧ ¬ HasLine board) ∨ ∃ c ∈ winConditions, Owns board c "tie")
      ∧ ("tie" ∉ board →
          (checkWinner board = .str "tie" ↔ ("" ∉ board ∧ ¬ HasLine board))) := by
  have hfwd : ("" ∉ board ∧ ¬ HasLine board) → checkWinner board = .str "tie" := by
    rintro ⟨he, hl⟩
    rw [checkWinner_of_not_hasLine board hl, if_neg]
    rwa [contains_empty_iff]
  have hback : checkWinner board = .str "tie" →
      ("" ∉ board ∧ ¬ HasLine board) ∨ ∃ c ∈ winConditions, Owns board c "tie" := by
    intro h
    by_cases hl : HasLine board
    · right
      obtain ⟨pre, c, post, s, hsplit, _, _, hown, hres⟩ := checkWinner_of_hasLine board hl
      rw [hres] at h
      obtain rfl : s = "tie" := by injection h
      exact ⟨c, by rw [hsplit]; simp, hown⟩
    · left
      refine ⟨?_, hl⟩
      rw [checkWinner_of_not_hasLine board hl] at h
      by_cases he : board.contains "" = true
      · rw [if_pos he] at h; cases h
      · rwa [contains_empty_iff] at he
  refine ⟨hfwd, hback, fun ht => ⟨fun h => ?_, hfwd⟩⟩
  rcases hback h with h1 | ⟨c, _, hown⟩
  · exact h1
  · exfalso
    apply ht
    have h0 := hown.1
    unfold cell at h0
    cases hb : board[c.1]? with
    | none => rw [hb] at h0; cases h0
    | some t =>
      rw [hb] at h0
      obtain rfl : t = "tie" := by injection h0
      exact List.getElem?_mem hb

/-- Witness of C3 (amended) on `['X','O','X','X','O','O','O','X','X']`, which
returns `'tie'`. -/
theorem checkWinner_tie_iff_witness :
    checkWinner ["X", "O", "X", "X", "O", "O", "O", "X", "X"] = .str "tie"
      ∧ ("" ∉ ["X", "O", "X", "X", "O", "O", "O", "X", "X"]
          ∧ ¬ HasLine ["X", "O", "X", "X", "O", "O", "O", "X", "X"]) :=
  ⟨by decide,
    ((checkWinner_tie_iff ["X", "O", "X", "X", "O", "O", "O", "X", "X"] rfl).2.2
      (by decide)).1 (by decide)⟩

/-- C4: a 9-cell board with no complete line and at least one empty cell gives
`null`, the ongoing outcome. -/
theorem checkWinner_ongoing (board : List String) (_h9 : board.length = 9)
    (hline : ¬ HasLine board) (hempty : "" ∈ board) : checkWinner board = .null := by
  rw [checkWinner_of_not_hasLine board hline, if_pos]
  rwa [contains_empty_iff]

/-- Witness of C4 on `['X','O','','','','','','','']`, which returns `null`. -/
theorem checkWinner_ongoing_witness :
    checkWinner ["X", "O", "", "", "", "", "", "", ""] = .null :=
  checkWinner_ongoing ["X", "O", "", "", "", "", "", "", ""] rfl
    (by rw [hasLine_iff_any]; decide) (by decide)

/-! ### Lemmas on the rotation -/

theorem entry_eq_getElem {α : Type} (m : List (List (Option α))) (j i : Nat) (hj : j < m.length)
    (hi : i < m[j].length) : entry m j i = m[j][i] := by
  simp [entry, List.getElem?_eq_getElem hj, List.getElem?_eq_getElem hi]

theorem rotatedRow_length {α : Type} (piece : List (List (Option α))) (i n : Nat) :
    (rotatedRow piece i n).length = n := by
  induction n with
  | zero => rfl
  | succ n ih => simp [rotatedRow, ih]

theorem rotatedRow_getElem? {α : Type} (piece : List (List (Option α))) (i n k : Nat) (hk : k < n) :
    (rotatedRow piece i n)[k]? = some (entry piece (n - 1 - k) i) := by
  induction n generalizing k with
  | zero => omega
  | succ n ih =>
    cases k with
    | zero => simp [rotatedRow]
    | succ k =>
      have hk2 : k < n := by omega
      simp only [rotatedRow, List.getElem?_cons_succ, ih k hk2]
      congr 2
      omega

/-- Two matrices of the same dimensions with the same entries are equal. -/
theorem matrix_ext {α : Type} (m n : List (List (Option α))) (R C : Nat)
    (hm : Rectangular m R C) (hn : Rectangular n R C)
    (h : ∀ j i, j < R → i < C → entry m j i = entry n j i) : m = n := by
  obtain ⟨hmR, hmC⟩ := hm
  obtain ⟨hnR, hnC⟩ := hn
  apply List.ext_getElem (by omega)
  intro j h1 h2
  have hmj : m[j].length = C := hmC _ (List.getElem_mem _)
  have hnj : n[j].length = C := hnC _ (List.getElem_mem _)
  apply List.ext_getElem (by omega)
  intro i h3 h4
  have := h j i (by omega) (by omega)
  rwa [entry_eq_getElem m j i h1 h3, entry_eq_getElem n j i h2 h4] at this

/-- The rotation of an `R × C` matrix with `R, C ≥ 1`: the result exists, is
`C × R`, and its entry `(i, k)` is the input entry `(R - 1 - k, i)`. -/
theorem rotateMatrix_rect {α : Type} (piece : List (List (Option α))) (R C : Nat)
    (hR : 1 ≤ R) (hrect : Rectangular piece R C) :
    ∃ out, rotateMatrix piece = some out ∧ Rectangular out C R
      ∧ (∀ i, i < C → out[i]? = some (rotatedRow piece i R))
      ∧ ∀ i k, i < C → k < R → entry out i k = entry piece (R - 1 - k) i := by
  obtain ⟨hlen, hrows⟩ := hrect
  cases piece with
  | nil => simp at hlen; omega
  | cons row0 rest =>
    have h0 : row0.length = C := hrows row0 (List.mem_cons_self _ _)
    have hrow : ∀ i, i < C →
        ((List.range C).map fun i => rotatedRow (row0 :: rest) i R)[i]?
          = some (rotatedRow (row0 :: rest) i R) := by
      intro i hi
      simp [List.getElem?_map, List.getElem?_range hi]
    refine ⟨(List.range C).map fun i => rotatedRow (row0 :: rest) i R, ?_, ⟨?_, ?_⟩, hrow, ?_⟩
    · simp only [rotateMatrix, h0, hlen]
    · simp
    · intro r hr
      obtain ⟨i, _, rfl⟩ := List.mem_map.1 hr
      exact rotatedRow_length _ _ _
    · intro i k hi hk
      simp only [entry, hrow i hi, rotatedRow_getElem? _ i R k hk]

theorem rotatedRow_eq_reverse {α : Type} (piece : List (List (Option α))) (i n : Nat) :
    rotatedRow piece i n = ((List.range n).map fun j => entry piece j i).reverse := by
  induction n with
  | zero => rfl
  | succ n ih => simp [rotatedRow, ih, List.range_succ]

theorem row_eq_of_getElem? {α : Type} (m : List (List (Option α))) (j : Nat)
    (r : List (Option α)) (h : m[j]? = some r) : row m j = r := by
  simp [row, List.getD_eq_getElem?_getD, h]

/-- Four rotations of an `R × C` matrix with `R, C ≥ 1` give the matrix back. -/
theorem rotateFourTimes_rect {α : Type} (piece : List (List (Option α))) (R C : Nat)
    (hR : 1 ≤ R) (hC : 1 ≤ C) (hrect : Rectangular piece R C) :
    rotateFourTimes piece = some piece := by
  obtain ⟨o1, h1, r1, _, e1⟩ := rotateMatrix_rect piece R C hR hrect
  obtain ⟨o2, h2, r2, _, e2⟩ := rotateMatrix_rect o1 C R hC r1
  obtain ⟨o3, h3, r3, _, e3⟩ := rotateMatrix_rect o2 R C hR r2
  obtain ⟨o4, h4, r4, _, e4⟩ := rotateMatrix_rect o3 C R hC r3
  have hrun : rotateFourTimes piece = some o4 := by
    simp [rotateFourTimes, h1, h2, h3, h4]
  rw [hrun]
  congr 1
  apply matrix_ext o4 piece R C r4 hrect
  intro j i hj hi
  rw [e4 j i hj hi, e3 (C - 1 - i) j (by omega) hj, e2 (R - 1 - j) (C - 1 - i) (by omega) (by omega),
    e1 (C - 1 - (C - 1 - i)) (R - 1 - j) (by omega) (by omega)]
  congr 1 <;> omega

/-! ### The claims on the rotation -/

/-- C5: for a rectangular matrix with `R ≥ 1` rows and `C ≥ 1` columns the rotation
loop produces a matrix with `C` rows of length `R` whose entry `(i, k)` is the
input entry `(R - 1 - k, i)`: output row `i` is input column `i` read from the
bottom row to the top row. -/
theorem rotateMatrix_clockwise {α : Type} (piece : List (List (Option α))) (R C : Nat)
    (hR : 1 ≤ R) (_hC : 1 ≤ C) (hrect : Rectangular piece R C) :
    ∃ out, rotateMatrix piece = some out ∧ Rectangular out C R
      ∧ (∀ i k, i < C → k < R → entry out i k = entry piece (R - 1 - k) i)
      ∧ ∀ i, i < C → row out i = (column piece i).reverse := by
  obtain ⟨out, hout, hr, hrow, he⟩ := rotateMatrix_rect piece R C hR hrect
  refine ⟨out, hout, hr, he, fun i hi => ?_⟩
  rw [row_eq_of_getElem? out i _ (hrow i hi), rotatedRow_eq_reverse, column, hrect.1]

/-- Witness of C5: `[[1,1,0],[0,1,1]]` rotates to `[[0,1],[1,1],[1,0]]`. -/
theorem rotateMatrix_clockwise_witness :
    rotateMatrix [[some 1, some 1, some 0], [some 0, some 1, some 1]]
        = some [[some 0, some 1], [some 1, some 1], [some 1, some 0]]
      ∧ ∃ out, rotateMatrix [[some 1, some 1, some 0], [some 0, some 1, some 1]] = some out
          ∧ Rectangular out 3 2
          ∧ (∀ i k, i < 3 → k < 2 →
              entry out i k
                = entry [[some 1, some 1, some 0], [some 0, some 1, some 1]] (2 - 1 - k) i)
          ∧ ∀ i, i < 3 →
              row out i
                = (column [[some 1, some 1, some 0], [some 0, some 1, some 1]] i).reverse :=
  ⟨by decide,
    @rotateMatrix_clockwise Nat [[some 1, some 1, some 0], [some 0, some 1, some 1]] 2 3
      (by decide) (by decide) ⟨rfl, by decide⟩⟩

/-- C6 as stated fails: for `[[1,2],[3,4]]` the rotation gives `[[3,1],[4,2]]`,
whose column 0 is `[3,4]`, while row 0 of the input reversed is `[2,1]`. -/
theorem rotateMatrix_column_counterexample :
    ¬ ∀ (piece out : List (List (Option Nat))) (R C : Nat),
        Rectangular piece R C → rotateMatrix piece = some out →
        ∀ i, i < R → column out i = (row piece i).reverse := by
  intro h
  have := h [[some 1, some 2], [some 3, some 4]] [[some 3, some 1], [some 4, some 2]] 2 2
    ⟨rfl, by decide⟩ (by decide) 0 (by decide)
  revert this
  decide

/-- C6 (amended): for every rectangular matrix with `R` rows, column `i` of the
output of the rotation equals row `R - 1 - i` of the input, read left to right:
the rows are taken in reversed order, each row unreversed. -/
theorem rotateMatrix_column {α : Type} (piece out : List (List (Option α))) (R C : Nat)
    (hrect : Rectangular piece R C)
    (hout : rotateMatrix piece = some out) (i : Nat) (hi : i < R) :
    column out i = row piece (R - 1 - i) := by
  have hR : 1 ≤ R := by omega
  obtain ⟨out2, hout2, hr, _, he⟩ := rotateMatrix_rect piece R C hR hrect
  obtain rfl : out2 = out := by rw [hout] at hout2; injection hout2 with h; exact h.symm
  have hj : R - 1 - i < piece.length := by rw [hrect.1]; omega
  have hlen : piece[R - 1 - i].length = C := hrect.2 _ (List.getElem_mem _)
  rw [row_eq_of_getElem? piece (R - 1 - i) _ (List.getElem?_eq_getElem hj), column, hr.1]
  apply List.ext_getElem (by simp [hlen])
  intro k h1 h2
  have hk : k < C := by simpa using h1
  simp only [List.getElem_map, List.getElem_range]
  rw [he k i hk hi, entry_eq_getElem piece (R - 1 - i) k hj (by omega)]

/-- Witness of C6 (amended) on `[[1,2],[3,4]]`: column 0 of the output is
`[3,4]`, row 1 of the input. -/
theorem rotateMatrix_column_witness :
    column [[some 3, some 1], [some 4, some 2]] 0
      = row [[some 1, some 2], [some 3, some 4]] (2 - 1 - 0) :=
  @rotateMatrix_column Nat [[some 1, some 2], [some 3, some 4]]
    [[some 3, some 1], [some 4, some 2]] 2 2 ⟨rfl, by decide⟩ (by decide) 0 (by decide)

/-- C7 as stated fails for `N = 0`: the 4 × 0 matrix `[[],[],[],[]]` rotates to
the empty array, on which the next rotation throws, so four rotations do not
return the original matrix. -/
theorem rotateFourTimes_counterexample :
    ¬ ∀ (piece : List (List (Option Nat))) (N : Nat), Rectangular piece 4 N →
        rotateFourTimes piece = some piece := by
  intro h
  have := h [[], [], [], []] 0 ⟨rfl, by decide⟩
  revert this
  decide

/-- C7 (amended): for every 4 × N matrix with `N ≥ 1`, applying the rotation four
times in succession returns the original matrix. -/
theorem rotateFourTimes_id {α : Type} (piece : List (List (Option α))) (N : Nat)
    (hN : 1 ≤ N) (hrect : Rectangular piece 4 N) : rotateFourTimes piece = some piece :=
  rotateFourTimes_rect piece 4 N (by decide) hN hrect

/-- Witness of C7 (amended) on the 4 × 1 vertical I piece. -/
theorem rotateFourTimes_id_witness :
    rotateFourTimes [[some 1], [some 2], [some 3], [some 4]]
      = some [[some 1], [some 2], [some 3], [some 4]] :=
  @rotateFourTimes_id Nat [[some 1], [some 2], [some 3], [some 4]] 1 (by decide)
    ⟨rfl, by decide⟩

/-! ### Simon Says -/

theorem everyFrom_isCorrect_iff (sequence playerInput : List Nat) (index : Nat) :
    everyFrom (fun val index => decide (sequence[index]? = some val)) playerInput index = true
      ↔ ∀ i (h : i < playerInput.length), sequence[index + i]? = some playerInput[i] := by
  induction playerInput generalizing index with
  | nil => simp [everyFrom]
  | cons val rest ih =>
    simp only [everyFrom, Bool.and_eq_true, decide_eq_true_eq, ih, List.length_cons]
    constructor
    · rintro ⟨h0, hrest⟩ i hi
      cases i with
      | zero => simpa using h0
      | succ i =>
        have := hrest i (by omega)
        simpa [Nat.add_assoc, Nat.add_comm 1 i] using this
    · intro h
      refine ⟨by simpa using h 0 (by omega), fun i hi => ?_⟩
      have := h (i + 1) (by omega)
      simpa [Nat.add_assoc, Nat.add_comm 1 i] using this

/-- C8: the Simon Says input check is true if and only if the input is no longer
than the sequence and every input element equals the sequence element at the
same index; `[0,2,1]` against `[0,2,1,3]` is accepted and `[0,2,2]` is not. -/
theorem isCorrect_iff :
    (∀ sequence playerInput : List Nat,
        isCorrect sequence playerInput = true
          ↔ playerInput.length ≤ sequence.length
            ∧ ∀ i (h1 : i < playerInput.length) (h2 : i < sequence.length),
                playerInput[i] = sequence[i])
      ∧ isCorrect [0, 2, 1, 3] [0, 2, 1] = true
      ∧ isCorrect [0, 2, 1, 3] [0, 2, 2] = false := by
  refine ⟨fun sequence playerInput => ?_, by decide, by decide⟩
  rw [isCorrect, everyFrom_isCorrect_iff]
  constructor
  · intro h
    have hlen : playerInput.length ≤ sequence.length := by
      by_contra hcon
      have hlt : sequence.length < playerInput.length := by omega
      have := h sequence.length hlt
      simp at this
    refine ⟨hlen, fun i h1 h2 => ?_⟩
    have := h i h1
    rw [Nat.zero_add, List.getElem?_eq_getElem h2] at this
    injection this with this
    exact this.symm
  · rintro ⟨hlen, h⟩ i hi
    have h2 : i < sequence.length := by omega
    rw [Nat.zero_add, List.getElem?_eq_getElem h2, h i hi h2]

/-! ### Screen wrapping -/

/-- C9: `wrap(value, max)` is `max` when `value < 0`, `0` when `value > max` and
`value` is not negative, and `value` otherwise; `wrap(-1, 600) = 600`,
`wrap(601, 600) = 0`, `wrap(300, 600) = 300`. -/
theorem wrap_cases :
    (∀ value max : ℚ,
        (value < 0 → wrap value max = max)
          ∧ (¬ value < 0 → value > max → wrap value max = 0)
          ∧ (¬ value < 0 → ¬ value > max → wrap value max = value))
      ∧ wrap (-1) 600 = 600 ∧ wrap 601 600 = 0 ∧ wrap 300 600 = 300 := by
  refine ⟨fun value max => ⟨fun h => ?_, fun h1 h2 => ?_, fun h1 h2 => ?_⟩, ?_, ?_, ?_⟩
  · simp [wrap, h]
  · simp [wrap, h1, h2]
  · simp [wrap, h1, h2]
  · norm_num [wrap]
  · norm_num [wrap]
  · norm_num [wrap]

/-! ### The shuffle -/

theorem swapCells_length {α : Type} (arr : List α) (i j : Nat) :
    (swapCells arr i j).length = arr.length := by
  unfold swapCells
  split <;> simp

theorem swapCells_perm {α : Type} (arr : List α) (i j : Nat) :
    (swapCells arr i j).Perm arr := by
  classical
  unfold swapCells
  split
  · rename_i x y hx hy
    obtain ⟨hi, rfl⟩ := List.getElem?_eq_some_iff.1 hx
    obtain ⟨hj, rfl⟩ := List.getElem?_eq_some_iff.1 hy
    rw [List.perm_iff_count]
    intro b
    have hj2 : j < (arr.set i arr[j]).length := by simpa using hj
    have hget : (arr.set i arr[j])[j] = arr[j] := by
      rw [List.getElem_set]
      split <;> rfl
    rw [List.count_set _ _ _ _ hj2, List.count_set _ _ _ _ hi, hget]
    have hpos : (if arr[i] == b then 1 else 0) ≤ List.count b arr := by
      split
      · rename_i hb
        have : arr[i] = b := by simpa using hb
        exact List.count_pos_iff.2 (this ▸ List.getElem_mem _)
      · omega
    rcases Bool.eq_false_or_eq_true (arr[i] == b) with h1 | h1 <;>
      rcases Bool.eq_false_or_eq_true (arr[j] == b) with h2 | h2 <;>
      simp only [h1, h2, if_true, if_false, Bool.false_eq_true] at hpos ⊢ <;> omega
  · exact List.Perm.refl _

/-- Inside the array the assignment is a genuine exchange of the two cells. -/
theorem swapCells_of_lt {α : Type} (arr : List α) (i j : Nat) (hi : i < arr.length)
    (hj : j < arr.length) : swapCells arr i j = (arr.set i arr[j]).set j arr[i] := by
  simp [swapCells, List.getElem?_eq_getElem hi, List.getElem?_eq_getElem hj]

theorem shuffleLoop_length {α : Type} (random : Nat → ℚ) (i calls : Nat) (arr : List α) :
    (shuffleLoop random i calls arr).length = arr.length := by
  induction i generalizing calls arr with
  | zero => rfl
  | succ i ih => rw [shuffleLoop, ih, swapCells_length]

theorem shuffleLoop_perm {α : Type} (random : Nat → ℚ) (i calls : Nat) (arr : List α) :
    (shuffleLoop random i calls arr).Perm arr := by
  induction i generalizing calls arr with
  | zero => exact List.Perm.refl _
  | succ i ih =>
    rw [shuffleLoop]
    exact (ih _ _).trans (swapCells_perm _ _ _)

theorem swapIndex_bounds (random : ℚ) (i : Nat) (h0 : 0 ≤ random) (h1 : random < 1) :
    0 ≤ swapIndex random i ∧ swapIndex random i ≤ (i : Int) := by
  have hpos : (0 : ℚ) < (i : ℚ) + 1 := by positivity
  constructor
  · rw [swapIndex, Int.floor_nonneg]
    exact mul_nonneg h0 hpos.le
  · have : swapIndex random i < (i : Int) + 1 := by
      rw [swapIndex, Int.floor_lt]
      push_cast
      calc random * ((i : ℚ) + 1) < 1 * ((i : ℚ) + 1) := mul_lt_mul_of_pos_right h1 hpos
        _ = (i : ℚ) + 1 := one_mul _
    omega

/-- C10: against every stream of draws in `[0, 1)`, `shuffle` returns an array of
the same length that is a permutation of the input, and at step `i` the swap
index `j = floor(random * (i + 1))` lies in `[0, i]`. -/
theorem shuffle_perm {α : Type} (random : Nat → ℚ)
    (hrandom : ∀ n, 0 ≤ random n ∧ random n < 1) (array : List α) :
    (shuffle random array).length = array.length
      ∧ (shuffle random array).Perm array
      ∧ ∀ n i, 0 ≤ swapIndex (random n) i ∧ swapIndex (random n) i ≤ (i : Int) :=
  ⟨shuffleLoop_length random _ 0 array, shuffleLoop_perm random _ 0 array,
    fun n i => swapIndex_bounds (random n) i (hrandom n).1 (hrandom n).2⟩

/-- Witness of C10: the array `[1,2,3,4,5]` of the test against the constant
stream of draws `1/2`, which gives `[1,4,2,5,3]`. -/
theorem shuffle_perm_witness :
    shuffle (fun _ => (1 / 2 : ℚ)) [1, 2, 3, 4, 5] = [1, 4, 2, 5, 3]
      ∧ (shuffle (fun _ => (1 / 2 : ℚ)) [1, 2, 3, 4, 5]).length = [1, 2, 3, 4, 5].length
      ∧ (shuffle (fun _ => (1 / 2 : ℚ)) [1, 2, 3, 4, 5]).Perm [1, 2, 3, 4, 5]
      ∧ ∀ n i : Nat, 0 ≤ swapIndex ((fun _ => (1 / 2 : ℚ)) n) i
          ∧ swapIndex ((fun _ => (1 / 2 : ℚ)) n) i ≤ (i : Int) :=
  ⟨by
      have h2 : Int.toNat 2 = 2 := rfl
      have h1 : Int.toNat 1 = 1 := rfl
      norm_num [shuffle, shuffleLoop, swapCells, swapIndex, h1, h2],
    @shuffle_perm Nat (fun _ => (1 / 2 : ℚ)) (fun _ => by norm_num) [1, 2, 3, 4, 5]⟩

/-! ### Collision checks -/

/-- C12: the Breakout brick-collision check is true if and only if the brick is
visible and the ball lies strictly inside the brick's rectangle on all four
sides; a ball on an edge, or any ball against an invisible brick, does not
collide. The ball `(30, 40)` of the test collides with its brick. -/
theorem brickCollision_iff :
    (∀ (ball : Ball) (brick : Brick),
        (brickCollision ball brick = true
          ↔ brick.visible = true ∧ brick.x < ball.x ∧ ball.x < brick.x + brick.width
            ∧ brick.y < ball.y ∧ ball.y < brick.y + brick.height)
        ∧ (brick.visible = false → brickCollision ball brick = false)
        ∧ (ball.x = brick.x ∨ ball.x = brick.x + brick.width ∨ ball.y = brick.y
            ∨ ball.y = brick.y + brick.height → brickCollision ball brick = false))
      ∧ brickCollision ⟨30, 40⟩ ⟨0, 30, 55, 15, true⟩ = true := by
  have hiff : ∀ (ball : Ball) (brick : Brick), brickCollision ball brick = true
      ↔ brick.visible = true ∧ brick.x < ball.x ∧ ball.x < brick.x + brick.width
        ∧ brick.y < ball.y ∧ ball.y < brick.y + brick.height := by
    intro ball brick
    simp only [brickCollision, Bool.and_eq_true, decide_eq_true_eq, gt_iff_lt, and_assoc]
  refine ⟨fun ball brick => ⟨hiff ball brick, fun hv => ?_, fun he => ?_⟩, ?_⟩
  · rw [Bool.eq_false_iff, Ne, hiff]
    rintro ⟨h, _⟩
    rw [hv] at h
    cases h
  · rw [Bool.eq_false_iff, Ne, hiff]
    rintro ⟨_, h1, h2, h3, h4⟩
    rcases he with he | he | he | he
    · exact absurd he h1.ne'
    · exact absurd he h2.ne
    · exact absurd he h3.ne'
    · exact absurd he h4.ne
  · rw [hiff]
    norm_num

/-- C13 as stated fails: the ball `(0, 140)` is left of the paddle
`{x: 10, y: 125, width: 10, height: 50}`, yet the Pong check reports a
collision. -/
theorem paddleCollision_counterexample :
    ¬ ∀ (ball : Ball) (paddle : Paddle), paddleCollision ball paddle = true →
        paddle.x < ball.x ∧ ball.x < paddle.x + paddle.width
          ∧ paddle.y < ball.y ∧ ball.y < paddle.y + paddle.height := by
  intro h
  have h1 := h ⟨0, 140⟩ ⟨10, 125, 10, 50⟩
    (by simp only [paddleCollision, Bool.and_eq_true, decide_eq_true_eq]; norm_num)
  norm_num at h1

/-- C13 (amended): the Pong paddle-collision check reports a collision exactly
when `ball.x < paddle.x + paddle.width` and
`paddle.y < ball.y < paddle.y + paddle.height`, all strict; the left edge
`paddle.x < ball.x` is not tested. The ball `(15, 140)` of the test collides. -/
theorem paddleCollision_iff :
    (∀ (ball : Ball) (paddle : Paddle),
        paddleCollision ball paddle = true
          ↔ ball.x < paddle.x + paddle.width
            ∧ paddle.y < ball.y ∧ ball.y < paddle.y + paddle.height)
      ∧ paddleCollision ⟨15, 140⟩ ⟨10, 125, 10, 50⟩ = true := by
  have hiff : ∀ (ball : Ball) (paddle : Paddle), paddleCollision ball paddle = true
      ↔ ball.x < paddle.x + paddle.width
        ∧ paddle.y < ball.y ∧ ball.y < paddle.y + paddle.height := by
    intro ball paddle
    simp only [paddleCollision, Bool.and_eq_true, decide_eq_true_eq, gt_iff_lt, and_assoc]
  refine ⟨hiff, ?_⟩
  rw [hiff]
  norm_num

/-- C14: the Snake wall check `checkCollision(x, y)` is false if and only if
`0 ≤ x < 400` and `0 ≤ y < 400`; `(-1,200)`, `(400,200)`, `(200,-1)` and
`(200,400)` collide, `(200,200)` does not, and `(0,0)` is inside. -/
theorem checkCollision_false_iff :
    (∀ x y : ℚ, checkCollision x y = false ↔ (0 ≤ x ∧ x < 400) ∧ (0 ≤ y ∧ y < 400))
      ∧ checkCollision (-1) 200 = true ∧ checkCollision 400 200 = true
      ∧ checkCollision 200 (-1) = true ∧ checkCollision 200 400 = true
      ∧ checkCollision 200 200 = false ∧ checkCollision 0 0 = false := by
  have hiff : ∀ x y : ℚ,
      checkCollision x y = false ↔ (0 ≤ x ∧ x < 400) ∧ (0 ≤ y ∧ y < 400) := by
    intro x y
    simp only [checkCollision, Bool.or_eq_false_iff, decide_eq_false_iff_not, not_lt, ge_iff_le,
      not_le, and_assoc]
  have htrue : ∀ x y : ℚ, ¬ ((0 ≤ x ∧ x < 400) ∧ (0 ≤ y ∧ y < 400)) →
      checkCollision x y = true := by
    intro x y h
    rw [← Bool.not_eq_false, hiff]
    exact h
  refine ⟨hiff, htrue _ _ ?_, htrue _ _ ?_, htrue _ _ ?_, htrue _ _ ?_, (hiff _ _).2 ?_,
    (hiff _ _).2 ?_⟩ <;> norm_num

/-! ### Simon Says progression -/

/-- C15: if `sequence.length` equals `level` before the progression step it does
so after it; on a completed round the sequence grows by exactly one element
and the level by exactly one, and otherwise nothing changes. -/
theorem progress_invariant (random : ℚ) (playerSequence : List Nat) (s : SimonState)
    (hinv : s.sequence.length = s.level) :
    (progress random playerSequence s).sequence.length
        = (progress random playerSequence s).level
      ∧ (playerSequence.length = s.sequence.length →
          (progress random playerSequence s).sequence.length = s.sequence.length + 1
            ∧ (progress random playerSequence s).level = s.level + 1
            ∧ (progress random playerSequence s).sequence
                = s.sequence ++ [nextColor random])
      ∧ (playerSequence.length ≠ s.sequence.length →
          progress random playerSequence s = s) := by
  unfold progress
  by_cases h : playerSequence.length = s.sequence.length
  · rw [if_pos h]
    refine ⟨?_, fun _ => ⟨?_, rfl, rfl⟩, fun hne => absurd h hne⟩
    · simp [hinv]
    · simp
  · rw [if_neg h]
    exact ⟨hinv, fun he => absurd he h, fun _ => rfl⟩

/-- Witness of C15 on the state of the test: level 1, sequence `[1]`, player
sequence `[1]`, which gives level 2 and a sequence of length 2. -/
theorem progress_invariant_witness :
    (progress (1 / 2) [1] ⟨1, [1]⟩).level = 2
      ∧ (progress (1 / 2) [1] ⟨1, [1]⟩).sequence.length = 2
      ∧ (progress (1 / 2) [1] ⟨1, [1]⟩).sequence.length
          = (progress (1 / 2) [1] ⟨1, [1]⟩).level :=
  ⟨((progress_invariant (1 / 2) [1] ⟨1, [1]⟩ rfl).2.1 rfl).2.1,
    ((progress_invariant (1 / 2) [1] ⟨1, [1]⟩ rfl).2.1 rfl).1,
    (progress_invariant (1 / 2) [1] ⟨1, [1]⟩ rfl).1⟩

/-! ### Tetris score -/

/-- C16: from score 0 the single-line clear, the four-line clear
(`100 * 4 + 400 = 800`), the soft-drop row and the 10-row hard drop give the
cumulative scores 100, 900, 901 and 921. -/
theorem scoreTrace_tetris :
    scoreTrace 0 scoreIncrements = [100, 900, 901, 921]
      ∧ scoreIncrements = [100, 800, 1, 20]
      ∧ (scoreTrace 0 scoreIncrements).getLast? = some 921 := by
  decide

/-! ### Breakout paddle -/

theorem moveRight_le (paddleWidth canvasWidth paddleX : ℚ) :
    moveRight paddleWidth canvasWidth paddleX ≤ canvasWidth - paddleWidth :=
  min_le_right _ _

theorem moveRight_nonneg (paddleWidth canvasWidth paddleX : ℚ)
    (hw : paddleWidth ≤ canvasWidth) (h0 : 0 ≤ paddleX) :
    0 ≤ moveRight paddleWidth canvasWidth paddleX :=
  le_min (by linarith) (by linarith)

theorem moveLeft_nonneg (paddleX : ℚ) : 0 ≤ moveLeft paddleX :=
  le_max_right _ _

theorem moveLeft_le (paddleX bound : ℚ) (hb : 0 ≤ bound) (h1 : paddleX ≤ bound) :
    moveLeft paddleX ≤ bound :=
  max_le (by linarith) hb

/-- C17: with `canvasWidth ≥ paddleWidth`, a `paddleX` in
`[0, canvasWidth - paddleWidth]` stays there after any sequence of move-right
and move-left steps; and from any starting value a move right leaves
`paddleX ≤ canvasWidth - paddleWidth`. -/
theorem movePaddle_bounds (paddleWidth canvasWidth paddleX : ℚ)
    (hw : paddleWidth ≤ canvasWidth) (h0 : 0 ≤ paddleX)
    (h1 : paddleX ≤ canvasWidth - paddleWidth) (moves : List PaddleMove) :
    (0 ≤ movePaddle paddleWidth canvasWidth paddleX moves
        ∧ movePaddle paddleWidth canvasWidth paddleX moves ≤ canvasWidth - paddleWidth)
      ∧ ∀ start : ℚ, moveRight paddleWidth canvasWidth start ≤ canvasWidth - paddleWidth := by
  refine ⟨?_, fun start => moveRight_le _ _ _⟩
  induction moves generalizing paddleX with
  | nil => exact ⟨h0, h1⟩
  | cons move rest ih =>
    cases move with
    | right =>
      exact ih _ (moveRight_nonneg _ _ _ hw h0) (moveRight_le _ _ _)
    | left =>
      exact ih _ (moveLeft_nonneg _) (moveLeft_le _ _ (by linarith) h1)

/-- Witness of C17 on the values of the test: `paddleX = 190`, width 100,
canvas 480, one move right then one move left. -/
theorem movePaddle_bounds_witness :
    (0 ≤ movePaddle 100 480 190 [.right, .left]
        ∧ movePaddle 100 480 190 [.right, .left] ≤ 480 - 100)
      ∧ ∀ start : ℚ, moveRight 100 480 start ≤ 480 - 100 :=
  movePaddle_bounds 100 480 190 (by norm_num) (by norm_num) (by norm_num) [.right, .left]

/-! ### Event listeners -/

theorem mem_firstOccurrences (calls : List String) (t : String) :
    t ∈ firstOccurrences calls ↔ t ∈ calls := by
  induction calls with
  | nil => simp [firstOccurrences]
  | cons c rest ih =>
    simp only [firstOccurrences, List.mem_cons, List.mem_filter, ih, bne_iff_ne, ne_eq]
    by_cases h : t = c
    · simp [h]
    · simp [h]

theorem firstOccurrences_nodup (calls : List String) : (firstOccurrences calls).Nodup := by
  induction calls with
  | nil => simp [firstOccurrences]
  | cons c rest ih =>
    rw [firstOccurrences, List.nodup_cons]
    refine ⟨?_, ih.filter _⟩
    simp [List.mem_filter]

/-- The calls made on a non-empty array add, in order of first occurrence, the
types that the array does not hold yet. -/
theorem addEvents_eq (events calls : List String) :
    addEvents events calls
      = events ++ (firstOccurrences calls).filter fun u => !events.contains u := by
  induction calls generalizing events with
  | nil => simp [addEvents, firstOccurrences]
  | cons c rest ih =>
    have hstep : addEvents events (c :: rest) = addEvents (addEvent events c) rest := rfl
    rw [hstep, ih, firstOccurrences]
    by_cases hc : events.contains c = true
    · have hmem : c ∈ events := by simpa using hc
      rw [addEvent, if_pos hc, List.filter_cons_of_neg (by simp [hmem]), List.filter_filter]
      congr 1
      apply List.filter_congr
      intro u _
      by_cases hu : u ∈ events
      · simp [hu]
      · have : u ≠ c := fun h => hu (h ▸ hmem)
        simp [hu, this]
    · have hmem : c ∉ events := by simpa using hc
      rw [addEvent, if_neg hc, List.filter_cons_of_pos (by simp [hmem]), List.filter_filter,
        List.append_assoc, List.singleton_append]
      congr 2
      apply List.filter_congr
      intro u _
      by_cases hu : u ∈ events
      · simp [hu]
      · by_cases huc : u = c
        · simp [huc]
        · simp [hu, huc]

/-- C18: starting from an empty list, after any sequence of `addEvent` calls the
list has no duplicates and is the list of distinct event types in order of
first occurrence; a call with a type already present leaves the list
unchanged; keydown, keyup, click, keydown gives `['keydown','keyup','click']`. -/
theorem addEvents_firstOccurrences :
    (∀ calls : List String,
        addEvents [] calls = firstOccurrences calls
          ∧ (addEvents [] calls).Nodup
          ∧ ∀ t, t ∈ addEvents [] calls ↔ t ∈ calls)
      ∧ (∀ (events : List String) (t : String), t ∈ events → addEvent events t = events)
      ∧ addEvents [] ["keydown", "keyup", "click", "keydown"] = ["keydown", "keyup", "click"] := by
  have heq : ∀ calls : List String, addEvents [] calls = firstOccurrences calls := by
    intro calls
    rw [addEvents_eq]
    simp
  refine ⟨fun calls => ⟨heq calls, ?_, fun t => ?_⟩, fun events t ht => ?_, by decide⟩
  · rw [heq]; exact firstOccurrences_nodup calls
  · rw [heq]; exact mem_firstOccurrences calls t
  · rw [addEvent, if_pos (by simpa using ht)]

/-! ### Flappy Bird scoring -/

/-- The pass adds one point for each pipe that satisfies the test of the `if`
and marks exactly those pipes. -/
theorem scoringPass_spec (birdX : ℚ) (score : Nat) (pipes : List Pipe) :
    (scoringPass birdX score pipes).1 = score + pipes.countP (justPassed birdX)
      ∧ (scoringPass birdX score pipes).2
          = pipes.map fun pipe =>
              if justPassed birdX pipe then Pipe.mk pipe.x pipe.width true else pipe := by
  induction pipes generalizing score with
  | nil => simp [scoringPass]
  | cons pipe rest ih =>
    by_cases h : justPassed birdX pipe = true
    · obtain ⟨h1, h2⟩ := ih (score + 1)
      simp only [scoringPass, h, if_true, List.map_cons]
      refine ⟨?_, by rw [h2]⟩
      rw [h1, List.countP_cons_of_pos _ _ h]
      omega
    · obtain ⟨h1, h2⟩ := ih score
      simp only [scoringPass, h, if_false, List.map_cons, Bool.false_eq_true]
      refine ⟨?_, by rw [h2]⟩
      rw [h1, List.countP_cons_of_neg _ _ h]

/-- A pass over pipes none of which satisfies the test changes nothing. -/
theorem scoringPass_of_none (birdX : ℚ) (score : Nat) (pipes : List Pipe)
    (h : ∀ pipe ∈ pipes, justPassed birdX pipe = false) :
    scoringPass birdX score pipes = (score, pipes) := by
  induction pipes with
  | nil => rfl
  | cons pipe rest ih =>
    have hp := h pipe (List.mem_cons_self _ _)
    have hr := ih fun q hq => h q (List.mem_cons_of_mem _ hq)
    simp [scoringPass, hp, hr]

/-- C19 at the input of the test: with `bird.x = 100` the first pipe's right
edge `50 + 50` equals `bird.x`, so the strict test `bird.x > pipe.x + pipe.width`
fails for both pipes; the pass leaves the score at 0 and marks no pipe, while
the test asserts a score of 1. -/
theorem scoringPass_test_input :
    scoringPass 100 0 [⟨50, 50, false⟩, ⟨200, 50, false⟩]
      = (0, [⟨50, 50, false⟩, ⟨200, 50, false⟩]) := by
  apply scoringPass_of_none
  intro pipe hp
  simp only [List.mem_cons, List.mem_singleton, List.not_mem_nil, or_false] at hp
  rcases hp with rfl | rfl <;> simp [justPassed] <;> norm_num

/-- C20: for a fixed bird position a second scoring pass over the pipes produced
by the first adds nothing to the score, whatever it starts from, and changes no
pipe. -/
theorem scoringPass_idempotent (birdX : ℚ) (score score2 : Nat) (pipes : List Pipe) :
    scoringPass birdX score2 (scoringPass birdX score pipes).2
      = (score2, (scoringPass birdX score pipes).2) := by
  apply scoringPass_of_none
  rw [(scoringPass_spec birdX score pipes).2]
  intro q hq
  obtain ⟨pipe, _, rfl⟩ := List.mem_map.1 hq
  by_cases h : justPassed birdX pipe = true
  · rw [if_pos h]
    simp [justPassed]
  · rw [if_neg h]
    simpa using h

/-! ### Range and idempotence of `wrap` -/

/-- C21: for every `max ≥ 0` and every `value`, `wrap(value, max)` lies in the
closed interval `[0, max]`, and wrapping twice is the same as wrapping once. -/
theorem wrap_range_idempotent (value max : ℚ) (hmax : 0 ≤ max) :
    (0 ≤ wrap value max ∧ wrap value max ≤ max)
      ∧ wrap (wrap value max) max = wrap value max := by
  have hrange : ∀ v : ℚ, 0 ≤ wrap v max ∧ wrap v max ≤ max := by
    intro v
    unfold wrap
    split_ifs with h1 h2
    · exact ⟨hmax, le_refl _⟩
    · exact ⟨le_refl _, hmax⟩
    · exact ⟨not_lt.1 h1, not_lt.1 h2⟩
  have hfix : ∀ v : ℚ, 0 ≤ v → v ≤ max → wrap v max = v := by
    intro v h0 h1
    unfold wrap
    rw [if_neg (not_lt.2 h0), if_neg (not_lt.2 h1)]
  exact ⟨hrange value, hfix _ (hrange value).1 (hrange value).2⟩

/-- Witness of C21 on the three values of the test with `max = 600`: the results
600, 0 and 300 lie in `[0, 600]` and are left unchanged by a second wrap. -/
theorem wrap_range_idempotent_witness :
    ((0 ≤ wrap (-1) 600 ∧ wrap (-1) 600 ≤ 600) ∧ wrap (wrap (-1) 600) 600 = wrap (-1) 600)
      ∧ ((0 ≤ wrap 601 600 ∧ wrap 601 600 ≤ 600) ∧ wrap (wrap 601 600) 600 = wrap 601 600)
      ∧ ((0 ≤ wrap 300 600 ∧ wrap 300 600 ≤ 600) ∧ wrap (wrap 300 600) 600 = wrap 300 600) :=
  ⟨wrap_range_idempotent (-1) 600 (by norm_num), wrap_range_idempotent 601 600 (by norm_num),
    wrap_range_idempotent 300 600 (by norm_num)⟩

/-! ### Asteroid collision -/

/-- The collision check without the square root: the threshold is positive and
the squared distance is below the squared threshold. -/
theorem asteroidCollision_iff_sq (x1 y1 x2 y2 threshold : ℝ) :
    asteroidCollision x1 y1 x2 y2 threshold
      ↔ 0 < threshold ∧ (x1 - x2) ^ 2 + (y1 - y2) ^ 2 < threshold ^ 2 := by
  unfold asteroidCollision
  rw [← pow_two, ← pow_two]
  constructor
  · intro h
    have hpos : 0 < threshold := lt_of_le_of_lt (Real.sqrt_nonneg _) h
    exact ⟨hpos, (Real.sqrt_lt' hpos).1 h⟩
  · rintro ⟨hpos, h⟩
    exact (Real.sqrt_lt' hpos).2 h

/-- C11: the asteroid collision check is true if and only if the Euclidean
distance `sqrt((x1-x2)^2 + (y1-y2)^2)` between the two centers is strictly less
than the threshold, so a pair at distance exactly the threshold does not
collide; bullet `(100,100)` and asteroid `(95,95)` of size 20 collide, and a
bullet at `(3,4)` against an asteroid at `(0,0)` of size 5 does not. -/
theorem asteroidCollision_iff :
    (∀ x1 y1 x2 y2 threshold : ℝ,
        (asteroidCollision x1 y1 x2 y2 threshold
          ↔ Real.sqrt ((x1 - x2) ^ 2 + (y1 - y2) ^ 2) < threshold)
        ∧ (Real.sqrt ((x1 - x2) ^ 2 + (y1 - y2) ^ 2) = threshold →
            ¬ asteroidCollision x1 y1 x2 y2 threshold))
      ∧ asteroidCollision 100 100 95 95 20
      ∧ ¬ asteroidCollision 3 4 0 0 5 := by
  have hiff : ∀ x1 y1 x2 y2 threshold : ℝ,
      asteroidCollision x1 y1 x2 y2 threshold
        ↔ Real.sqrt ((x1 - x2) ^ 2 + (y1 - y2) ^ 2) < threshold := by
    intro x1 y1 x2 y2 threshold
    unfold asteroidCollision
    rw [← pow_two, ← pow_two]
  refine ⟨fun x1 y1 x2 y2 threshold => ⟨hiff _ _ _ _ _, fun heq hcol => ?_⟩, ?_, ?_⟩
  · rw [hiff, heq] at hcol
    exact lt_irrefl _ hcol
  · rw [asteroidCollision_iff_sq]
    norm_num
  · rw [asteroidCollision_iff_sq]
    norm_num

end GameTests
